import Mathlib

/-!
Shallow embedding of the timesheet engine in `app.py` (class `TimesheetApp`).

Numbers that the Python code handles as floats are modelled as rationals
(`ℚ`), with Python's `round` (banker's rounding, half to even) and `int`
(truncation toward zero) made explicit.  Strings are Lean `String`s and
Python's `str.strip` is modelled by `stripStr`.  The Google-Sheets row store
is modelled as an in-memory list of rows; a successful append is list
concatenation.
-/

/-- Python's built-in `round` to an integer: nearest integer, ties to even. -/
def pyround (q : ℚ) : ℤ :=
  if q - (⌊q⌋ : ℚ) < 1/2 then ⌊q⌋
  else if 1/2 < q - (⌊q⌋ : ℚ) then ⌊q⌋ + 1
  else if ⌊q⌋ % 2 = 0 then ⌊q⌋ else ⌊q⌋ + 1

/-- Python's `round(x, 2)` / pandas `.round(2)`: two-decimal rounding. -/
def round2 (q : ℚ) : ℚ := (pyround (q * 100) : ℚ) / 100

/-- Python's `int()` conversion on a float: truncation toward zero. -/
def int_trunc (q : ℚ) : ℤ := if q < 0 then ⌈q⌉ else ⌊q⌋

/-- `TimesheetApp.get_program_cap`: the static program-cap table, with the
`dict.get` default of `2.0` for a program that is not in the table. -/
def get_program_cap (program : String) : ℚ :=
  if program = "Rawdat" then 2
  else if program = "Rawdat + Admin Work" then 5/2
  else if program = "Sigaar" then 2
  else if program = "Mukhayyam" then 4
  else if program = "Kibaar" then 2
  else if program = "Camp" then 4
  else 2

/-- `TimesheetApp.round_partial_hour` (the name is shortened here): the
quarter-hour bucket for the remaining minutes of a partial hour. -/
def round_part_hour (minutes : ℤ) : ℚ :=
  if minutes ≤ 15 then 1/4
  else if minutes ≤ 30 then 1/2
  else if minutes ≤ 45 then 3/4
  else 1

/-- `TimesheetApp.adjust_hours`: cap clipping, then whole-hours split and
quarter-hour bucket rounding of the remaining minutes.  The code performs no
input validation; `int()` truncation and `round` are modelled exactly. -/
def adjust_hours (actual_hours : ℚ) (program : String) : ℚ :=
  if actual_hours > get_program_cap program then get_program_cap program
  else
    (int_trunc actual_hours : ℚ) +
      round_part_hour (pyround ((actual_hours - (int_trunc actual_hours : ℚ)) * 60))

/-- Whitespace test used by `str.strip`. -/
def wsp (c : Char) : Bool := c.isWhitespace

/-- Python's `str.strip()`: remove leading and trailing whitespace. -/
def stripStr (s : String) : String :=
  ⟨((s.data.dropWhile wsp).reverse.dropWhile wsp).reverse⟩

/-- One data row of the timesheet sheet (columns A:H in order): sequence
number, teacher id, date `YYYY-MM-DD`, clock-in `HH:MM:SS`, clock-out
(`HH:MM:SS` or empty while the session is open), actual hours, adjusted
hours, program name. -/
structure TimesheetEntry where
  seq : ℕ
  teacher_id : String
  date : String
  clock_in : String
  clock_out : String
  actual_hours : ℚ
  adjusted_hours : ℚ
  program : String
deriving DecidableEq, Repr

/-- The row filter inside `TimesheetApp.check_active_session`: same (stripped)
teacher id, same date, and an empty (stripped) clock-out field. -/
def isOpenRowFor (tid today : String) (r : TimesheetEntry) : Bool :=
  stripStr r.teacher_id = tid ∧ r.date = today ∧ stripStr r.clock_out = ""

/-- The open rows that `check_active_session` selects for a teacher and date,
in sheet order. -/
def openRowsFor (tid today : String) (rows : List TimesheetEntry) : List TimesheetEntry :=
  rows.filter (isOpenRowFor tid today)

/-- `TimesheetApp.check_active_session`: strips the queried id, filters the
sheet to the open rows for (teacher, today), and returns `(False, None)` when
there are none and `(True, first row's program)` otherwise — `iloc[0]` takes
the first matching row whatever the number of matches. -/
def check_active_session (teacher_id today : String) (rows : List TimesheetEntry) :
    Bool × Option String :=
  match openRowsFor (stripStr teacher_id) today rows with
  | [] => (false, none)
  | r :: _ => (true, some r.program)

/-- Outcome of `TimesheetApp.handle_clock_in`, one constructor per `st.error`
branch plus the success path. -/
inductive ClockInOutcome where
  | missingInput : ClockInOutcome
  | invalidId : ClockInOutcome
  | activeSession : Option String → ClockInOutcome
  | appended : ClockInOutcome
deriving DecidableEq, Repr

/-- `TimesheetApp.get_teacher_info` reduced to "was a teacher row found":
both the queried id and the directory ids are compared stripped. -/
def teacher_id_known (directory : List String) (tid : String) : Bool :=
  (directory.map stripStr).contains (stripStr tid)

/-- `TimesheetApp.handle_clock_in` against an in-memory sheet: validates the
input, the teacher directory and the absence of an active session, then
appends a new open row (sequence `len + 1`, empty clock-out, zero hours).
Returns the outcome together with the resulting sheet; every failure leaves
the sheet unchanged. -/
def handle_clock_in (directory : List String) (teacher program today timeStr : String)
    (rows : List TimesheetEntry) : ClockInOutcome × List TimesheetEntry :=
  if stripStr teacher = "" ∨ program = "Select Program" then (.missingInput, rows)
  else if teacher_id_known directory (stripStr teacher) = false then (.invalidId, rows)
  else if (check_active_session (stripStr teacher) today rows).1 then
    (.activeSession (check_active_session (stripStr teacher) today rows).2, rows)
  else
    (.appended, rows ++
      [⟨rows.length + 1, stripStr teacher, today, timeStr, "", 0, 0, program⟩])

/-- `calendar.month_abbr`: abbreviated month names, index 0 unused. -/
def monthAbbr (m : ℕ) : String :=
  (["", "Jan", "Feb", "Mar", "Apr", "May", "Jun",
    "Jul", "Aug", "Sep", "Oct", "Nov", "Dec"].getD m "")

/-- Step one month backward on a (year, month) pair, wrapping January to
December of the previous year — the decrement used both for earlier periods
and for a period's start month in `calculate_payroll_periods`. -/
def prevYM (p : ℤ × ℕ) : ℤ × ℕ :=
  if p.2 = 1 then (p.1 - 1, 12) else (p.1, p.2 - 1)

/-- One payroll period as produced by `calculate_payroll_periods`:
`(start_date, end_date, display_name)` with the dates split into fields. -/
structure PayrollPeriod where
  startYear : ℤ
  startMonth : ℕ
  startDay : ℕ
  endYear : ℤ
  endMonth : ℕ
  endDay : ℕ
  label : String
deriving DecidableEq, Repr

/-- Build the period whose end month is `e`: start on the 20th of the month
before `e`, end on the 19th of `e`, labelled `"Mon 20 - Mon 19, YYYY"`. -/
def mkPeriod (e : ℤ × ℕ) : PayrollPeriod where
  startYear := (prevYM e).1
  startMonth := (prevYM e).2
  startDay := 20
  endYear := e.1
  endMonth := e.2
  endDay := 19
  label := monthAbbr (prevYM e).2 ++ " 20 - " ++ monthAbbr e.2 ++ " 19, " ++ toString e.1

/-- The loop of `calculate_payroll_periods`: iteration 0 uses the current end
month unchanged, every later iteration first steps the end month back. -/
def payrollGo : ℤ × ℕ → ℕ → List PayrollPeriod
  | _, 0 => []
  | e, Nat.succ k => mkPeriod e :: payrollGo (prevYM e) k

/-- `TimesheetApp.calculate_payroll_periods`, parametrised by today's date
(year, month, day-of-month): the current period ends on the 19th of this
month when the day is before the 20th, else on the 19th of the next month
(December wrapping to January of the next year). -/
def calculate_payroll_periods (y : ℤ) (m d : ℕ) (num_periods : ℕ) : List PayrollPeriod :=
  payrollGo (if d < 20 then (y, m) else (if m = 12 then (y + 1, 1) else (y, m + 1)))
    num_periods

/-- Sum of the `adjusted_hours` of the entries carrying a given program name
(the per-group sum of the pandas `groupby('program')['adjusted_hours'].sum()`).
Entries are modelled as (program, adjusted_hours) pairs. -/
def sumAdjusted (entries : List (String × ℚ)) (p : String) : ℚ :=
  ((entries.filter (fun e => e.1 = p)).map Prod.snd).sum

/-- The grouped, two-decimal-rounded totals dictionary, one pair per distinct
program name of the input. -/
def groupTotals (entries : List (String × ℚ)) : List (String × ℚ) :=
  ((entries.map Prod.fst).dedup).map (fun p => (p, round2 (sumAdjusted entries p)))

/-- The `rawdat_total` accumulator of `calculate_program_totals`: the summed
totals of the `"Rawdat"` and `"Rawdat + Admin Work"` groups (0 when absent). -/
def rawdatTotalOf (entries : List (String × ℚ)) : ℚ :=
  (((groupTotals entries).filter
      (fun e => e.1 = "Rawdat" ∨ e.1 = "Rawdat + Admin Work")).map Prod.snd).sum

/-- The program enumeration offered by the UI dropdown. -/
def validProgram (p : String) : Bool :=
  ["Rawdat", "Rawdat + Admin Work", "Sigaar", "Mukhayyam", "Kibaar", "Camp"].contains p

/-- The sort key of `calculate_program_totals`: Python's
`sorted(key = (-hours, name))`, so hours descending, names ascending. -/
def totalsRel (a b : String × ℚ) : Prop :=
  b.2 < a.2 ∨ (a.2 = b.2 ∧ a.1 ≤ b.1)

instance totalsRel.decRel : DecidableRel totalsRel := by
  intro a b
  unfold totalsRel
  infer_instance

instance totalsRel.isTotal : IsTotal (String × ℚ) totalsRel := by
  constructor
  intro a b
  unfold totalsRel
  rcases lt_trichotomy a.2 b.2 with h | h | h
  · exact Or.inr (Or.inl h)
  · rcases le_total a.1 b.1 with hs | hs
    · exact Or.inl (Or.inr ⟨h, hs⟩)
    · exact Or.inr (Or.inr ⟨h.symm, hs⟩)
  · exact Or.inl (Or.inl h)

instance totalsRel.isTrans : IsTrans (String × ℚ) totalsRel := by
  constructor
  intro a b c hab hbc
  unfold totalsRel at *
  rcases hab with h1 | ⟨h1, h1s⟩
  · rcases hbc with h2 | ⟨h2, _⟩
    · exact Or.inl (h2.trans h1)
    · exact Or.inl (h2 ▸ h1)
  · rcases hbc with h2 | ⟨h2, h2s⟩
    · exact Or.inl (h1 ▸ h2)
    · exact Or.inr ⟨h1.trans h2, h1s.trans h2s⟩

/-- `TimesheetApp.calculate_program_totals`: empty input yields an empty
mapping; otherwise group by program and round each total to two decimals,
remove the `"Rawdat"` and `"Rawdat + Admin Work"` keys, re-add their combined
total under `"Rawdat & Rawdat + Admin Work"` only when it is strictly
positive, and sort by total descending with names ascending.  Python's stable
`sorted` is modelled by `List.insertionSort`; the keys of the merged
dictionary are distinct, so the sorted list is the same. -/
def restTotals (entries : List (String × ℚ)) : List (String × ℚ) :=
  (groupTotals entries).filter
    (fun e => ¬ (e.1 = "Rawdat" ∨ e.1 = "Rawdat + Admin Work"))

/-- The body of `TimesheetApp.calculate_program_totals` (see `restTotals` for
the grouping-and-merging description). -/
def calculate_program_totals (entries : List (String × ℚ)) : List (String × ℚ) :=
  if entries = [] then []
  else
    (if 0 < rawdatTotalOf entries
     then restTotals entries ++ [("Rawdat & Rawdat + Admin Work", rawdatTotalOf entries)]
     else restTotals entries).insertionSort totalsRel

/-- C3 counterexample: `adjust(1.50, "Rawdat")` is `1.5`, not the `1.75`
the spec's worked example states — the 30-minute remainder falls in the
`minutes <= 30` branch of `round_partial_hour` and maps to the `0.50`
bucket. -/
theorem adjust_hours_150_is_150 :
    adjust_hours (3/2) "Rawdat" = 3/2 ∧ (3/2 : ℚ) ≠ 7/4 := by
  have hcap : get_program_cap "Rawdat" = 2 := rfl
  constructor
  · simp only [adjust_hours, hcap]
    norm_num [int_trunc, pyround, round_part_hour]
  · norm_num

/-- C3 amended: the worked examples as the code computes them:
`adjust(1.20, "Rawdat") = 1.25` (12-minute remainder),
`adjust(1.50, "Rawdat") = 1.50` (30-minute remainder, `0.50` bucket), and
`adjust(2.10, "Rawdat") = 2.0` because Rawdat's cap is `2.0`. -/
theorem adjust_hours_worked_examples :
    adjust_hours (6/5) "Rawdat" = 5/4 ∧
    adjust_hours (3/2) "Rawdat" = 3/2 ∧
    adjust_hours (21/10) "Rawdat" = 2 := by
  have hcap : get_program_cap "Rawdat" = 2 := rfl
  refine ⟨?_, ?_, ?_⟩ <;>
    · simp only [adjust_hours, hcap]
      norm_num [int_trunc, pyround, round_part_hour]

/-- C5: for every program and every `actual_hours` strictly above the
program's cap, `adjust_hours` returns the cap exactly — overtime is clipped
and no quarter-hour rounding is applied afterwards. -/
theorem adjust_hours_clips_overtime (program : String) (h : ℚ)
    (hover : get_program_cap program < h) :
    adjust_hours h program = get_program_cap program := by
  unfold adjust_hours
  rw [if_pos hover]

/-- Witness for C5 at `adjust(3, "Rawdat")`: the cap 2 is returned. -/
theorem adjust_hours_clips_overtime_witness :
    adjust_hours 3 "Rawdat" = get_program_cap "Rawdat" :=
  adjust_hours_clips_overtime "Rawdat" 3 (by norm_num [get_program_cap])

theorem floor_le_pyround (q : ℚ) : ⌊q⌋ ≤ pyround q := by
  unfold pyround
  split_ifs <;> omega

theorem pyround_le_floor_add_one (q : ℚ) : pyround q ≤ ⌊q⌋ + 1 := by
  unfold pyround
  split_ifs <;> omega

theorem pyround_nonneg (q : ℚ) (h : 0 ≤ q) : 0 ≤ pyround q :=
  le_trans (Int.floor_nonneg.mpr h) (floor_le_pyround q)

theorem pyround_le_of_lt (q : ℚ) (b : ℤ) (h : q < (b : ℚ)) : pyround q ≤ b := by
  have hf : ⌊q⌋ < b := Int.floor_lt.mpr h
  have := pyround_le_floor_add_one q
  omega

theorem int_trunc_of_nonneg (q : ℚ) (h : 0 ≤ q) : int_trunc q = ⌊q⌋ := by
  unfold int_trunc
  rw [if_neg (not_lt.mpr h)]

theorem round_part_hour_mem (m : ℤ) :
    round_part_hour m = 1/4 ∨ round_part_hour m = 1/2 ∨
    round_part_hour m = 3/4 ∨ round_part_hour m = 1 := by
  unfold round_part_hour
  split_ifs <;> simp

theorem quarter_le_round_part_hour (m : ℤ) : 1/4 ≤ round_part_hour m := by
  unfold round_part_hour
  split_ifs <;> norm_num

theorem round_part_hour_le_one (m : ℤ) : round_part_hour m ≤ 1 := by
  unfold round_part_hour
  split_ifs <;> norm_num

theorem round_part_hour_le_half (m : ℤ) (h : m ≤ 30) : round_part_hour m ≤ 1/2 := by
  unfold round_part_hour
  split_ifs <;> norm_num

theorem get_program_cap_cases (p : String) :
    get_program_cap p = 2 ∨ get_program_cap p = 5/2 ∨ get_program_cap p = 4 := by
  unfold get_program_cap
  split_ifs <;> norm_num

theorem two_le_get_program_cap (p : String) : 2 ≤ get_program_cap p := by
  rcases get_program_cap_cases p with h | h | h <;> rw [h] <;> norm_num

/-- C4: for in-range non-negative hours, `adjust` returns the whole hours
`⌊h⌋` plus the quarter-hour bucket of the rounded remainder minutes:
`0..15 → 0.25`, `16..30 → 0.50`, `31..45 → 0.75`, `46..59 → 1.00`; in
particular a zero-minute remainder maps to `0.25`, so a perfectly whole-hour
input is rounded up: `adjust(1.0, "Sigaar") = 1.25`. -/
theorem adjust_hours_bucket_mapping (program : String) (h : ℚ)
    (h0 : 0 ≤ h) (hcap : h ≤ get_program_cap program) :
    (0 ≤ pyround ((h - (⌊h⌋ : ℚ)) * 60) → pyround ((h - (⌊h⌋ : ℚ)) * 60) ≤ 15 →
      adjust_hours h program = (⌊h⌋ : ℚ) + 1/4) ∧
    (16 ≤ pyround ((h - (⌊h⌋ : ℚ)) * 60) → pyround ((h - (⌊h⌋ : ℚ)) * 60) ≤ 30 →
      adjust_hours h program = (⌊h⌋ : ℚ) + 1/2) ∧
    (31 ≤ pyround ((h - (⌊h⌋ : ℚ)) * 60) → pyround ((h - (⌊h⌋ : ℚ)) * 60) ≤ 45 →
      adjust_hours h program = (⌊h⌋ : ℚ) + 3/4) ∧
    (46 ≤ pyround ((h - (⌊h⌋ : ℚ)) * 60) → pyround ((h - (⌊h⌋ : ℚ)) * 60) ≤ 59 →
      adjust_hours h program = (⌊h⌋ : ℚ) + 1) ∧
    adjust_hours 1 "Sigaar" = 5/4 := by
  have hex : adjust_hours 1 "Sigaar" = 5/4 := by
    have hc : get_program_cap "Sigaar" = 2 := rfl
    simp only [adjust_hours, hc]
    norm_num [int_trunc, pyround, round_part_hour]
  have hnb : ¬ (h > get_program_cap program) := not_lt.mpr hcap
  have htr : int_trunc h = ⌊h⌋ := int_trunc_of_nonneg h h0
  have hun : adjust_hours h program =
      (⌊h⌋ : ℚ) + round_part_hour (pyround ((h - (⌊h⌋ : ℚ)) * 60)) := by
    rw [adjust_hours.eq_def, if_neg hnb, htr]
  refine ⟨?_, ?_, ?_, ?_, hex⟩
  · intro _ h15
    rw [hun, round_part_hour.eq_def, if_pos h15]
  · intro h16 h30
    rw [hun, round_part_hour.eq_def, if_neg (by omega), if_pos h30]
  · intro h31 h45
    rw [hun, round_part_hour.eq_def, if_neg (by omega), if_neg (by omega), if_pos h45]
  · intro h46 _
    rw [hun, round_part_hour.eq_def, if_neg (by omega), if_neg (by omega),
      if_neg (by omega)]

/-- Witness for C4 at `adjust(1.20, "Rawdat")`: the 12-minute remainder is in
the first bucket, so the result is `⌊1.2⌋ + 0.25 = 1.25`. -/
theorem adjust_hours_bucket_mapping_witness :
    adjust_hours (6/5) "Rawdat" = (⌊(6/5 : ℚ)⌋ : ℚ) + 1/4 :=
  (adjust_hours_bucket_mapping "Rawdat" (6/5) (by norm_num)
      (by norm_num [get_program_cap])).1
    (by norm_num [pyround]) (by norm_num [pyround])

/-- C10: for every in-range non-negative input, `adjust` returns at least a
quarter hour: the result is `⌊h⌋` plus exactly one of `0.25`, `0.50`, `0.75`,
`1.00`, and it is never `0`. -/
theorem adjust_hours_min_quarter (program : String) (h : ℚ)
    (h0 : 0 ≤ h) (hcap : h ≤ get_program_cap program) :
    1/4 ≤ adjust_hours h program ∧
    (adjust_hours h program = (⌊h⌋ : ℚ) + 1/4 ∨
     adjust_hours h program = (⌊h⌋ : ℚ) + 1/2 ∨
     adjust_hours h program = (⌊h⌋ : ℚ) + 3/4 ∨
     adjust_hours h program = (⌊h⌋ : ℚ) + 1) ∧
    adjust_hours h program ≠ 0 := by
  have hnb : ¬ (h > get_program_cap program) := not_lt.mpr hcap
  have htr : int_trunc h = ⌊h⌋ := int_trunc_of_nonneg h h0
  have hfl : (0 : ℚ) ≤ (⌊h⌋ : ℚ) := by
    exact_mod_cast Int.floor_nonneg.mpr h0
  have hun : adjust_hours h program =
      (⌊h⌋ : ℚ) + round_part_hour (pyround ((h - (⌊h⌋ : ℚ)) * 60)) := by
    rw [adjust_hours.eq_def, if_neg hnb, htr]
  have hq := quarter_le_round_part_hour (pyround ((h - (⌊h⌋ : ℚ)) * 60))
  have hlow : 1/4 ≤ adjust_hours h program := by rw [hun]; linarith
  refine ⟨hlow, ?_, by intro hzero; rw [hzero] at hlow; norm_num at hlow⟩
  rw [hun]
  rcases round_part_hour_mem (pyround ((h - (⌊h⌋ : ℚ)) * 60)) with hm | hm | hm | hm <;>
    rw [hm] <;> tauto

/-- Witness for C10 at `adjust(0, "Rawdat")`: a zero-length session is billed
a quarter hour. -/
theorem adjust_hours_min_quarter_witness :
    1/4 ≤ adjust_hours 0 "Rawdat" ∧
    (adjust_hours 0 "Rawdat" = (⌊(0 : ℚ)⌋ : ℚ) + 1/4 ∨
     adjust_hours 0 "Rawdat" = (⌊(0 : ℚ)⌋ : ℚ) + 1/2 ∨
     adjust_hours 0 "Rawdat" = (⌊(0 : ℚ)⌋ : ℚ) + 3/4 ∨
     adjust_hours 0 "Rawdat" = (⌊(0 : ℚ)⌋ : ℚ) + 1) ∧
    adjust_hours 0 "Rawdat" ≠ 0 :=
  adjust_hours_min_quarter "Rawdat" 0 (by norm_num) (by norm_num [get_program_cap])

/-- C2 counterexample: at `actual_hours` equal to the cap exactly the bound
fails: `adjust(2.0, "Rawdat") = 2.25`, which exceeds Rawdat's cap `2.0` —
the zero-minute remainder is still bumped to the `0.25` bucket and the cap
clipping only fires for inputs strictly above the cap. -/
theorem adjust_hours_at_cap_exceeds_cap :
    adjust_hours 2 "Rawdat" = 9/4 ∧
    ¬ (adjust_hours 2 "Rawdat" ≤ get_program_cap "Rawdat") := by
  have hcap : get_program_cap "Rawdat" = 2 := rfl
  have hval : adjust_hours 2 "Rawdat" = 9/4 := by
    simp only [adjust_hours, hcap]
    norm_num [int_trunc, pyround, round_part_hour]
  refine ⟨hval, ?_⟩
  rw [hval, hcap]
  norm_num

/-- C2 amended: for every program and every non-negative `actual_hours` other
than the cap itself, the adjusted hours lie in `[0, cap]`; the bound can fail
only at `actual_hours = cap` exactly (where e.g. Rawdat yields `cap + 0.25`). -/
theorem adjust_hours_range (program : String) (h : ℚ)
    (h0 : 0 ≤ h) (hne : h ≠ get_program_cap program) :
    0 ≤ adjust_hours h program ∧ adjust_hours h program ≤ get_program_cap program := by
  by_cases hover : get_program_cap program < h
  · have hun : adjust_hours h program = get_program_cap program := by
      rw [adjust_hours.eq_def, if_pos hover]
    have := two_le_get_program_cap program
    rw [hun]
    constructor <;> linarith
  · have hlt : h < get_program_cap program :=
      lt_of_le_of_ne (not_lt.mp hover) hne
    have htr : int_trunc h = ⌊h⌋ := int_trunc_of_nonneg h h0
    have hfl : (0 : ℚ) ≤ (⌊h⌋ : ℚ) := by
      exact_mod_cast Int.floor_nonneg.mpr h0
    have hun : adjust_hours h program =
        (⌊h⌋ : ℚ) + round_part_hour (pyround ((h - (⌊h⌋ : ℚ)) * 60)) := by
      rw [adjust_hours.eq_def, if_neg hover, htr]
    have hq := quarter_le_round_part_hour (pyround ((h - (⌊h⌋ : ℚ)) * 60))
    have hone := round_part_hour_le_one (pyround ((h - (⌊h⌋ : ℚ)) * 60))
    rw [hun]
    refine ⟨by linarith, ?_⟩
    rcases get_program_cap_cases program with hcap | hcap | hcap <;> rw [hcap] at hlt ⊢
    · have hfl2 : ⌊h⌋ ≤ 1 := by
        have : ⌊h⌋ < 2 := Int.floor_lt.mpr (by exact_mod_cast hlt)
        omega
      have : (⌊h⌋ : ℚ) ≤ 1 := by exact_mod_cast hfl2
      linarith
    · have hfl2 : ⌊h⌋ ≤ 2 := by
        have : ⌊h⌋ < 3 := Int.floor_lt.mpr (by push_cast; linarith)
        omega
      rcases eq_or_lt_of_le hfl2 with hfl3 | hfl3
      · have hflq : (⌊h⌋ : ℚ) = 2 := by exact_mod_cast hfl3
        have hfrac : (h - (⌊h⌋ : ℚ)) * 60 < ((30 : ℤ) : ℚ) := by
          rw [hflq]
          push_cast
          linarith
        have h30 := pyround_le_of_lt _ 30 hfrac
        have := round_part_hour_le_half (pyround ((h - (⌊h⌋ : ℚ)) * 60)) h30
        linarith
      · have hfl4 : ⌊h⌋ ≤ 1 := by omega
        have : (⌊h⌋ : ℚ) ≤ 1 := by exact_mod_cast hfl4
        linarith
    · have hfl2 : ⌊h⌋ ≤ 3 := by
        have : ⌊h⌋ < 4 := Int.floor_lt.mpr (by exact_mod_cast hlt)
        omega
      have : (⌊h⌋ : ℚ) ≤ 3 := by exact_mod_cast hfl2
      linarith

/-- Witness for C2 (amended) at `adjust(1, "Rawdat")`: the result `1.25` lies
in `[0, 2]`. -/
theorem adjust_hours_range_witness :
    0 ≤ adjust_hours 1 "Rawdat" ∧ adjust_hours 1 "Rawdat" ≤ get_program_cap "Rawdat" :=
  adjust_hours_range "Rawdat" 1 (by norm_num) (by norm_num [get_program_cap])

/-- C6 counterexample: a negative `actual_hours` is not rejected: the code
has no validation at all, so `adjust(-1.0, "Rawdat")` returns the ordinary
numeric value `-0.75` (truncation toward zero gives `-1` whole hours and the
zero remainder maps to the `0.25` bucket) instead of an `InvalidInput`
failure. -/
theorem adjust_hours_negative_returns_value :
    adjust_hours (-1) "Rawdat" = -(3/4) ∧ adjust_hours (-1) "Rawdat" < 0 := by
  have hcap : get_program_cap "Rawdat" = 2 := rfl
  have hval : adjust_hours (-1) "Rawdat" = -(3/4) := by
    simp only [adjust_hours, hcap]
    norm_num [int_trunc, pyround, round_part_hour, Int.ceil_neg]
  exact ⟨hval, by rw [hval]; norm_num⟩

/-- C6 amended: `adjust` performs no input validation: a negative
`actual_hours` flows through the same truncation-and-bucket arithmetic as any
other below-cap input and yields an ordinary numeric result; the function is
total, with no failure modes and no side effects, for every input. -/
theorem adjust_hours_no_negative_check (program : String) (h : ℚ) (hneg : h < 0) :
    adjust_hours h program =
      (int_trunc h : ℚ) +
        round_part_hour (pyround ((h - (int_trunc h : ℚ)) * 60)) := by
  have hcap := two_le_get_program_cap program
  rw [adjust_hours.eq_def, if_neg (by linarith)]

/-- Witness for C6 (amended) at `adjust(-1, "Rawdat")`. -/
theorem adjust_hours_no_negative_check_witness :
    adjust_hours (-1) "Rawdat" =
      (int_trunc (-1) : ℚ) +
        round_part_hour (pyround (((-1) - (int_trunc (-1) : ℚ)) * 60)) :=
  adjust_hours_no_negative_check "Rawdat" (-1) (by norm_num)

theorem payrollGo_length (e : ℤ × ℕ) (n : ℕ) : (payrollGo e n).length = n := by
  induction n generalizing e with
  | zero => rfl
  | succ k ih => simp [payrollGo, ih]

theorem payrollGo_getElem (e : ℤ × ℕ) (n i : ℕ) (hi : i < n) :
    (payrollGo e n)[i]? = some (mkPeriod (prevYM^[i] e)) := by
  induction n generalizing e i with
  | zero => omega
  | succ k ih =>
    cases i with
    | zero => simp [payrollGo]
    | succ j =>
      have hj : j < k := by omega
      simp only [payrollGo, List.getElem?_cons_succ]
      rw [ih (prevYM e) j hj, Function.iterate_succ_apply]

theorem payrollGo_mem (e : ℤ × ℕ) (n : ℕ) (p : PayrollPeriod)
    (hp : p ∈ payrollGo e n) : ∃ x, p = mkPeriod x := by
  induction n generalizing e with
  | zero => simp [payrollGo] at hp
  | succ k ih =>
    simp only [payrollGo, List.mem_cons] at hp
    rcases hp with rfl | hp
    · exact ⟨e, rfl⟩
    · exact ih (prevYM e) hp

/-- C7: for every current date and every `n >= 1`,
`calculate_payroll_periods` returns exactly `n` periods; the current period
ends on the 19th of this month when today's day-of-month is below 20 and on
the 19th of the next month otherwise (December wrapping to January of the
next year); each later entry's end month is one month before the previous
entry's, wrapping January to December of the previous year; every period
starts on the 20th of the month immediately preceding its end month; and on
March 25 the current period ends April 19 while on March 5 it ends
March 19. -/
theorem calculate_payroll_periods_spec (y : ℤ) (m d n : ℕ) (hn : 1 ≤ n) :
    (calculate_payroll_periods y m d n).length = n ∧
    ((calculate_payroll_periods y m d n).head?).map
        (fun p => (p.endYear, p.endMonth, p.endDay)) =
      some (if d < 20 then (y, m, 19)
            else if m = 12 then (y + 1, 1, 19) else (y, m + 1, 19)) ∧
    (∀ i p q, (calculate_payroll_periods y m d n)[i]? = some p →
      (calculate_payroll_periods y m d n)[i + 1]? = some q →
      (q.endYear, q.endMonth, q.endDay) =
        (if p.endMonth = 1 then (p.endYear - 1, 12, 19)
         else (p.endYear, p.endMonth - 1, 19))) ∧
    (∀ p, p ∈ calculate_payroll_periods y m d n →
      (p.startYear, p.startMonth, p.startDay) =
        (if p.endMonth = 1 then (p.endYear - 1, 12, 20)
         else (p.endYear, p.endMonth - 1, 20))) ∧
    (calculate_payroll_periods 2025 3 25 1).map
        (fun p => (p.endYear, p.endMonth, p.endDay)) = [(2025, 4, 19)] ∧
    (calculate_payroll_periods 2025 3 5 1).map
        (fun p => (p.endYear, p.endMonth, p.endDay)) = [(2025, 3, 19)] := by
  obtain ⟨k, rfl⟩ : ∃ k, n = k + 1 := ⟨n - 1, by omega⟩
  refine ⟨payrollGo_length _ _, ?_, ?_, ?_, by rfl, by rfl⟩
  · simp only [calculate_payroll_periods, payrollGo, List.head?_cons, Option.map_some']
    split_ifs <;> rfl
  · intro i p q hp hq
    have hlen : (calculate_payroll_periods y m d (k + 1)).length = k + 1 :=
      payrollGo_length _ _
    have hi1 : i + 1 < k + 1 := by
      by_contra hcon
      have : (calculate_payroll_periods y m d (k + 1))[i + 1]? = none :=
        List.getElem?_eq_none (by omega)
      rw [this] at hq
      exact Option.noConfusion hq
    have hi : i < k + 1 := by omega
    simp only [calculate_payroll_periods] at hp hq
    rw [payrollGo_getElem _ _ _ hi] at hp
    rw [payrollGo_getElem _ _ _ hi1] at hq
    have hp' := Option.some.inj hp
    have hq' := Option.some.inj hq
    subst hp'
    subst hq'
    rw [Function.iterate_succ_apply']
    rcases hx : prevYM^[i]
        (if d < 20 then (y, m) else if m = 12 then (y + 1, 1) else (y, m + 1)) with ⟨xy, xm⟩
    by_cases hxm : xm = 1
    · simp [mkPeriod, prevYM, hxm]
    · simp [mkPeriod, prevYM, hxm]
  · intro p hp
    obtain ⟨x, rfl⟩ := payrollGo_mem _ _ p hp
    by_cases hxm : x.2 = 1
    · simp [mkPeriod, prevYM, hxm]
    · simp [mkPeriod, prevYM, hxm]

/-- Witness for C7 on March 25, 2025 with `n = 3`. -/
theorem calculate_payroll_periods_spec_witness :
    (calculate_payroll_periods 2025 3 25 3).length = 3 ∧
    ((calculate_payroll_periods 2025 3 25 3).head?).map
        (fun p => (p.endYear, p.endMonth, p.endDay)) =
      some (if 25 < 20 then ((2025 : ℤ), 3, 19)
            else if 3 = 12 then ((2025 : ℤ) + 1, 1, 19) else ((2025 : ℤ), 3 + 1, 19)) ∧
    (∀ i p q, (calculate_payroll_periods 2025 3 25 3)[i]? = some p →
      (calculate_payroll_periods 2025 3 25 3)[i + 1]? = some q →
      (q.endYear, q.endMonth, q.endDay) =
        (if p.endMonth = 1 then (p.endYear - 1, 12, 19)
         else (p.endYear, p.endMonth - 1, 19))) ∧
    (∀ p, p ∈ calculate_payroll_periods 2025 3 25 3 →
      (p.startYear, p.startMonth, p.startDay) =
        (if p.endMonth = 1 then (p.endYear - 1, 12, 20)
         else (p.endYear, p.endMonth - 1, 20))) ∧
    (calculate_payroll_periods 2025 3 25 1).map
        (fun p => (p.endYear, p.endMonth, p.endDay)) = [(2025, 4, 19)] ∧
    (calculate_payroll_periods 2025 3 5 1).map
        (fun p => (p.endYear, p.endMonth, p.endDay)) = [(2025, 3, 19)] :=
  calculate_payroll_periods_spec 2025 3 25 3 (by norm_num)

/-- C1 counterexample: with two open rows for the same worker and date,
`check_active_session` returns `(True, "Rawdat")` — the program of the first
open row — exactly as it does when only that first row exists.  The multiple
open rows are not detected: the result type has no `MultipleOpenSessions`
variant and the second open row is silently ignored. -/
theorem check_active_session_picks_first :
    check_active_session "123" "2025-03-01"
        [⟨1, "123", "2025-03-01", "09:00:00", "", 0, 0, "Rawdat"⟩,
         ⟨2, "123", "2025-03-01", "10:00:00", "", 0, 0, "Sigaar"⟩] =
      (true, some "Rawdat") ∧
    check_active_session "123" "2025-03-01"
        [⟨1, "123", "2025-03-01", "09:00:00", "", 0, 0, "Rawdat"⟩] =
      (true, some "Rawdat") := by
  constructor <;> rfl

/-- C1 amended: whenever the filtered list of open entries for (worker, date)
is non-empty, `check_active_session` returns `(True, program of the FIRST
open row)`, however many further open rows exist; no distinct
`MultipleOpenSessions` signal exists in the code. -/
theorem check_active_session_first_open_row (tid today : String)
    (rows : List TimesheetEntry) (r : TimesheetEntry) (rest : List TimesheetEntry)
    (hr : openRowsFor (stripStr tid) today rows = r :: rest) :
    check_active_session tid today rows = (true, some r.program) := by
  unfold check_active_session
  rw [hr]

/-- Witness for C1 (amended): a sheet with two open rows; the first one's
program is returned. -/
theorem check_active_session_first_open_row_witness :
    check_active_session "77" "2025-04-02"
        [⟨1, "77", "2025-04-02", "09:00:00", "", 0, 0, "Mukhayyam"⟩,
         ⟨2, "77", "2025-04-02", "10:00:00", "", 0, 0, "Camp"⟩] =
      (true, some "Mukhayyam") :=
  check_active_session_first_open_row "77" "2025-04-02"
    [⟨1, "77", "2025-04-02", "09:00:00", "", 0, 0, "Mukhayyam"⟩,
     ⟨2, "77", "2025-04-02", "10:00:00", "", 0, 0, "Camp"⟩]
    ⟨1, "77", "2025-04-02", "09:00:00", "", 0, 0, "Mukhayyam"⟩
    [⟨2, "77", "2025-04-02", "10:00:00", "", 0, 0, "Camp"⟩]
    (by rfl)

/-- C9: a clock-in attempt by a worker who already has an open entry for the
day fails on the active-session branch and appends nothing: the sheet is
returned unchanged, so a second open session for the same (worker, date) is
never created through `handle_clock_in`.  The worker id is assumed to carry
no surrounding whitespace (`stripStr teacher = teacher`), matching the ids
the code itself writes. -/
theorem handle_clock_in_rejects_active (directory : List String)
    (teacher program today timeStr : String) (rows : List TimesheetEntry)
    (r : TimesheetEntry)
    (hcanon : stripStr teacher = teacher)
    (hne : teacher ≠ "")
    (hprog : program ≠ "Select Program")
    (hknown : teacher_id_known directory teacher = true)
    (hr : r ∈ rows) (hopen : isOpenRowFor teacher today r = true) :
    ∃ p, handle_clock_in directory teacher program today timeStr rows =
      (ClockInOutcome.activeSession p, rows) := by
  have hfilter : openRowsFor teacher today rows ≠ [] := by
    intro hnil
    have hall := List.filter_eq_nil_iff.mp hnil
    exact absurd hopen (by simpa using hall r hr)
  rcases hfe : openRowsFor teacher today rows with _ | ⟨r0, rest⟩
  · exact absurd hfe hfilter
  · have hcheck : check_active_session teacher today rows = (true, some r0.program) := by
      unfold check_active_session
      rw [hcanon, hfe]
    refine ⟨some r0.program, ?_⟩
    rw [handle_clock_in.eq_def, hcanon]
    rw [if_neg (by simp [hne, hprog]), if_neg (by simp [hknown]), hcheck]
    rfl

/-- Witness for C9: one open row for worker 77 today; the clock-in attempt
reports the active session and the sheet is unchanged. -/
theorem handle_clock_in_rejects_active_witness :
    ∃ p, handle_clock_in ["77"] "77" "Mukhayyam" "2025-04-02" "11:00:00"
        [⟨1, "77", "2025-04-02", "09:00:00", "", 0, 0, "Mukhayyam"⟩] =
      (ClockInOutcome.activeSession p,
        [⟨1, "77", "2025-04-02", "09:00:00", "", 0, 0, "Mukhayyam"⟩]) :=
  handle_clock_in_rejects_active ["77"] "77" "Mukhayyam" "2025-04-02" "11:00:00"
    [⟨1, "77", "2025-04-02", "09:00:00", "", 0, 0, "Mukhayyam"⟩]
    ⟨1, "77", "2025-04-02", "09:00:00", "", 0, 0, "Mukhayyam"⟩
    (by rfl) (by decide) (by decide) (by rfl) (by simp) (by rfl)

theorem round2_zero : round2 0 = 0 := by norm_num [round2, pyround]

theorem sumAdjusted_of_not_mem (entries : List (String × ℚ)) (p : String)
    (hp : p ∉ entries.map Prod.fst) : sumAdjusted entries p = 0 := by
  unfold sumAdjusted
  have hnil : entries.filter (fun e => e.1 = p) = [] := by
    rw [List.filter_eq_nil_iff]
    intro e he
    simp only [decide_eq_true_eq]
    intro hcon
    exact hp (hcon ▸ List.mem_map_of_mem Prod.fst he)
  rw [hnil]
  rfl

theorem filter_pair_sum (g : String → ℚ) (a b : String) (hab : a ≠ b) :
    ∀ (ns : List String), ns.Nodup →
      ((ns.filter (fun p => p = a ∨ p = b)).map g).sum =
        (if a ∈ ns then g a else 0) + (if b ∈ ns then g b else 0) := by
  intro ns
  induction ns with
  | nil => simp
  | cons x xs ih =>
    intro hnd
    have hx : x ∉ xs := (List.nodup_cons.mp hnd).1
    have hxs : xs.Nodup := (List.nodup_cons.mp hnd).2
    by_cases hxa : x = a
    · subst hxa
      have hbx : ¬ b = x := fun hcon => hab hcon.symm
      simp only [List.filter_cons, List.mem_cons]
      rw [if_pos (by simp)]
      simp only [List.map_cons, List.sum_cons, ih hxs]
      simp [hx, hbx]
      try ring
    · by_cases hxb : x = b
      · subst hxb
        have hax : ¬ a = x := fun hcon => hxa hcon.symm
        simp only [List.filter_cons, List.mem_cons]
        rw [if_pos (by simp)]
        simp only [List.map_cons, List.sum_cons, ih hxs]
        simp [hx, hax]
        try ring
      · have hax : ¬ a = x := fun hcon => hxa hcon.symm
        have hbx : ¬ b = x := fun hcon => hxb hcon.symm
        simp only [List.filter_cons, List.mem_cons]
        rw [if_neg (by simp [hxa, hxb])]
        rw [ih hxs]
        simp [hax, hbx]

theorem rawdatTotalOf_eq (entries : List (String × ℚ)) :
    rawdatTotalOf entries =
      round2 (sumAdjusted entries "Rawdat") +
        round2 (sumAdjusted entries "Rawdat + Admin Work") := by
  unfold rawdatTotalOf groupTotals
  rw [List.filter_map, List.map_map]
  have hsum := filter_pair_sum (fun p => round2 (sumAdjusted entries p))
    "Rawdat" "Rawdat + Admin Work" (by decide)
    ((entries.map Prod.fst).dedup) (List.nodup_dedup _)
  rw [show ((fun e : String × ℚ =>
        decide (e.1 = "Rawdat" ∨ e.1 = "Rawdat + Admin Work")) ∘
        (fun p => (p, round2 (sumAdjusted entries p)))) =
      (fun p => decide (p = "Rawdat" ∨ p = "Rawdat + Admin Work")) from rfl]
  rw [show (Prod.snd ∘ (fun p => (p, round2 (sumAdjusted entries p)))) =
      (fun p => round2 (sumAdjusted entries p)) from rfl]
  rw [hsum]
  congr 1
  · by_cases h1 : "Rawdat" ∈ (entries.map Prod.fst).dedup
    · rw [if_pos h1]
    · rw [if_neg h1,
        sumAdjusted_of_not_mem entries "Rawdat" (fun hc => h1 (List.mem_dedup.mpr hc)),
        round2_zero]
  · by_cases h2 : "Rawdat + Admin Work" ∈ (entries.map Prod.fst).dedup
    · rw [if_pos h2]
    · rw [if_neg h2,
        sumAdjusted_of_not_mem entries "Rawdat + Admin Work"
          (fun hc => h2 (List.mem_dedup.mpr hc)),
        round2_zero]

/-- C8 counterexample: on the input `[("Rawdat", 0)]` the grouped Rawdat
total is `0`, so the `rawdat_total > 0` guard drops the merged label
entirely: the result is the empty mapping, not the merged label with total
`0` that an unconditional merge would produce. -/
theorem calculate_program_totals_zero_merge :
    calculate_program_totals [("Rawdat", 0)] = [] ∧
    calculate_program_totals [("Rawdat", 0)] ≠
      [("Rawdat & Rawdat + Admin Work", 0)] := by
  have h0 : rawdatTotalOf [("Rawdat", 0)] = 0 := by
    norm_num [rawdatTotalOf, groupTotals, sumAdjusted, round2, pyround,
      List.dedup_cons_of_not_mem]
  have hmain : calculate_program_totals [("Rawdat", 0)] = [] := by
    rw [calculate_program_totals, if_neg (by simp), if_neg (by rw [h0]; norm_num)]
    norm_num [restTotals, groupTotals, List.dedup_cons_of_not_mem, List.insertionSort]
  exact ⟨hmain, by rw [hmain]; simp⟩

/-- C8 amended: over entries whose programs come from the fixed enumeration,
`calculate_program_totals` sums `adjusted_hours` by program (two-decimal
rounded), removes the `"Rawdat"` and `"Rawdat + Admin Work"` labels, re-adds
their combined total under the merged label only when that total is strictly
positive (a merged total of zero or less is dropped, not reported), orders
the result by total descending with ties by name ascending, and maps empty
input to an empty mapping. -/
theorem calculate_program_totals_spec (entries : List (String × ℚ))
    (hv : ∀ e ∈ entries, validProgram e.1 = true) :
    calculate_program_totals [] = [] ∧
    List.Sorted totalsRel (calculate_program_totals entries) ∧
    (∀ e ∈ calculate_program_totals entries,
      e.1 ≠ "Rawdat" ∧ e.1 ≠ "Rawdat + Admin Work") ∧
    rawdatTotalOf entries =
      round2 (sumAdjusted entries "Rawdat") +
        round2 (sumAdjusted entries "Rawdat + Admin Work") ∧
    (0 < rawdatTotalOf entries →
      ("Rawdat & Rawdat + Admin Work", rawdatTotalOf entries) ∈
        calculate_program_totals entries) ∧
    (¬ 0 < rawdatTotalOf entries →
      ∀ e ∈ calculate_program_totals entries,
        e.1 ≠ "Rawdat & Rawdat + Admin Work") ∧
    (∀ p, p ∈ entries.map Prod.fst → p ≠ "Rawdat" → p ≠ "Rawdat + Admin Work" →
      (p, round2 (sumAdjusted entries p)) ∈ calculate_program_totals entries) := by
  by_cases hE : entries = []
  · subst hE
    have hz : rawdatTotalOf ([] : List (String × ℚ)) = 0 := rfl
    refine ⟨rfl, by simp [calculate_program_totals], by simp [calculate_program_totals],
      rawdatTotalOf_eq [], ?_, ?_, by simp⟩
    · intro hpos
      rw [hz] at hpos
      exact absurd hpos (by norm_num)
    · intro _
      simp [calculate_program_totals]
  · have hout : calculate_program_totals entries =
        (if 0 < rawdatTotalOf entries
         then restTotals entries ++
            [("Rawdat & Rawdat + Admin Work", rawdatTotalOf entries)]
         else restTotals entries).insertionSort totalsRel := by
      rw [calculate_program_totals, if_neg hE]
    have hperm := List.perm_insertionSort totalsRel
      (if 0 < rawdatTotalOf entries
       then restTotals entries ++
          [("Rawdat & Rawdat + Admin Work", rawdatTotalOf entries)]
       else restTotals entries)
    have hrest_ne : ∀ e ∈ restTotals entries,
        e.1 ≠ "Rawdat" ∧ e.1 ≠ "Rawdat + Admin Work" := by
      intro e he
      have hp := (List.mem_filter.mp he).2
      exact not_or.mp (of_decide_eq_true hp)
    have hrest_valid : ∀ e ∈ restTotals entries, validProgram e.1 = true := by
      intro e he
      have hg := (List.mem_filter.mp he).1
      obtain ⟨p, hpmem, hpe⟩ := List.mem_map.mp hg
      obtain ⟨en, hen, hfst⟩ := List.mem_map.mp (List.mem_dedup.mp hpmem)
      have := hv en hen
      rw [← hpe]
      simpa [hfst] using this
    refine ⟨rfl, ?_, ?_, rawdatTotalOf_eq entries, ?_, ?_, ?_⟩
    · rw [hout]
      exact List.sorted_insertionSort totalsRel _
    · intro e he
      rw [hout] at he
      have he2 := hperm.mem_iff.mp he
      by_cases h0 : 0 < rawdatTotalOf entries
      · rw [if_pos h0] at he2
        rcases List.mem_append.mp he2 with hin | hin
        · exact hrest_ne e hin
        · have heq : e = ("Rawdat & Rawdat + Admin Work", rawdatTotalOf entries) := by
            simpa using hin
          have hfst : e.1 = "Rawdat & Rawdat + Admin Work" := by rw [heq]
          rw [hfst]
          exact ⟨by decide, by decide⟩
      · rw [if_neg h0] at he2
        exact hrest_ne e he2
    · intro h0
      rw [hout]
      apply hperm.mem_iff.mpr
      rw [if_pos h0]
      exact List.mem_append.mpr (Or.inr (by simp))
    · intro h0 e he
      rw [hout] at he
      have he2 := hperm.mem_iff.mp he
      rw [if_neg h0] at he2
      have hval := hrest_valid e he2
      intro hcon
      rw [hcon] at hval
      exact absurd hval (by decide)
    · intro p hp hp1 hp2
      have hg : (p, round2 (sumAdjusted entries p)) ∈ groupTotals entries := by
        unfold groupTotals
        exact List.mem_map_of_mem _ (List.mem_dedup.mpr hp)
      have hrest : (p, round2 (sumAdjusted entries p)) ∈ restTotals entries :=
        List.mem_filter.mpr ⟨hg, by simp [hp1, hp2]⟩
      rw [hout]
      apply hperm.mem_iff.mpr
      by_cases h0 : 0 < rawdatTotalOf entries
      · rw [if_pos h0]
        exact List.mem_append.mpr (Or.inl hrest)
      · rw [if_neg h0]
        exact hrest

/-- Witness for C8 (amended) on entries Rawdat 2h, Rawdat + Admin Work 1h,
Sigaar 7h. -/
theorem calculate_program_totals_spec_witness :
    calculate_program_totals [] = [] ∧
    List.Sorted totalsRel
      (calculate_program_totals
        [("Rawdat", 2), ("Rawdat + Admin Work", 1), ("Sigaar", 7)]) ∧
    (∀ e ∈ calculate_program_totals
        [("Rawdat", 2), ("Rawdat + Admin Work", 1), ("Sigaar", 7)],
      e.1 ≠ "Rawdat" ∧ e.1 ≠ "Rawdat + Admin Work") ∧
    rawdatTotalOf [("Rawdat", 2), ("Rawdat + Admin Work", 1), ("Sigaar", 7)] =
      round2 (sumAdjusted
        [("Rawdat", 2), ("Rawdat + Admin Work", 1), ("Sigaar", 7)] "Rawdat") +
        round2 (sumAdjusted
          [("Rawdat", 2), ("Rawdat + Admin Work", 1), ("Sigaar", 7)]
          "Rawdat + Admin Work") ∧
    (0 < rawdatTotalOf [("Rawdat", 2), ("Rawdat + Admin Work", 1), ("Sigaar", 7)] →
      ("Rawdat & Rawdat + Admin Work",
        rawdatTotalOf [("Rawdat", 2), ("Rawdat + Admin Work", 1), ("Sigaar", 7)]) ∈
        calculate_program_totals
          [("Rawdat", 2), ("Rawdat + Admin Work", 1), ("Sigaar", 7)]) ∧
    (¬ 0 < rawdatTotalOf [("Rawdat", 2), ("Rawdat + Admin Work", 1), ("Sigaar", 7)] →
      ∀ e ∈ calculate_program_totals
          [("Rawdat", 2), ("Rawdat + Admin Work", 1), ("Sigaar", 7)],
        e.1 ≠ "Rawdat & Rawdat + Admin Work") ∧
    (∀ p, p ∈ (List.map Prod.fst
        [("Rawdat", (2 : ℚ)), ("Rawdat + Admin Work", 1), ("Sigaar", 7)]) →
      p ≠ "Rawdat" → p ≠ "Rawdat + Admin Work" →
      (p, round2 (sumAdjusted
        [("Rawdat", 2), ("Rawdat + Admin Work", 1), ("Sigaar", 7)] p)) ∈
        calculate_program_totals
          [("Rawdat", 2), ("Rawdat + Admin Work", 1), ("Sigaar", 7)]) :=
  calculate_program_totals_spec
    [("Rawdat", 2), ("Rawdat + Admin Work", 1), ("Sigaar", 7)]
    (by decide)
